import Mathlib

/-!
Shallow embedding of the retrieval-and-rerank pipeline of
`query_astra_llm.py`: term extraction, the client-side keyword gate, the
deterministic fallback scorer, cross-encoder re-ranking under a wall-clock
budget, and the orchestrator `retrieve_and_answer`.

External collaborators (vector store + embedder, cross-encoder, answer
LLM) enter as explicit function parameters.  Machine floats are modelled
as rationals (all scores produced by the fallback scorer are exact small
decimals, and provider scores are opaque).  The process-global lazily
loaded cross-encoder handle `_CE` is modelled as an explicit `SysState`
value threaded through the calls.  Text handling models Python string
operations over `List Char` (ASCII model of `str.lower`, `str.strip`,
and of the regex classes `\w` and `\b`).
-/

/-- ASCII whitespace stripped by Python `str.strip()`. -/
def pyIsSpace (c : Char) : Bool :=
  c = ' ' || c = '\t' || c = '\n' || c = '\r' || c = '\x0b' || c = '\x0c' ||
    c = '\x1c' || c = '\x1d' || c = '\x1e' || c = '\x1f'

/-- Python `str.strip()` on a list of characters. -/
def pyStrip (l : List Char) : List Char :=
  ((l.dropWhile pyIsSpace).reverse.dropWhile pyIsSpace).reverse

/-- Python `str.lower()` on one character (ASCII model). -/
def pyToLower (c : Char) : Char :=
  if 65 ≤ c.toNat && c.toNat ≤ 90 then Char.ofNat (c.toNat + 32) else c

/-- Python `str.lower()` on a list of characters. -/
def pyLower (l : List Char) : List Char := l.map pyToLower

/-- ASCII model of the regex character class `\w`: `[A-Za-z0-9_]`. -/
def isWordChar (c : Char) : Bool :=
  (97 ≤ c.toNat && c.toNat ≤ 122) || (65 ≤ c.toNat && c.toNat ≤ 90) ||
    (48 ≤ c.toNat && c.toNat ≤ 57) || c = '_'

/-- Characters that survive the token split `re.split(r"[^\w+]+", s)`:
word characters plus a literal plus sign. -/
def tokenChar (c : Char) : Bool := isWordChar c || c = '+'

/-- Left-to-right scan implementing `re.findall` of the quoted-phrase regex: the first
argument says whether an opening quote has been consumed, the second
accumulates (reversed) the characters seen since it.  A closing quote with
empty content fails the `[^"]+` requirement, and the regex engine then
restarts the search at that very quote, which hence becomes a new opening
quote. -/
def findPhrasesAux : Bool → List Char → List Char → List (List Char)
  | _, _, [] => []
  | false, acc, c :: rest =>
    if c = '"' then findPhrasesAux true [] rest else findPhrasesAux false acc rest
  | true, acc, c :: rest =>
    if c = '"' then
      if acc.isEmpty then findPhrasesAux true [] rest
      else acc.reverse :: findPhrasesAux false [] rest
    else findPhrasesAux true (c :: acc) rest

/-- `re.findall` of the quoted-phrase regex: contents of the double-quoted
phrases of the question. -/
def reFindPhrases (l : List Char) : List (List Char) := findPhrasesAux false [] l

/-- Left-to-right scan implementing `re.sub` replacing every quoted phrase by one space: every
matched quoted phrase (quotes included) is replaced by one space; quotes
that are not part of a match are kept verbatim. -/
def subPhrasesAux : Bool → List Char → List Char → List Char
  | false, _, [] => []
  | true, acc, [] => '"' :: acc.reverse
  | false, acc, c :: rest =>
    if c = '"' then subPhrasesAux true [] rest else c :: subPhrasesAux false acc rest
  | true, acc, c :: rest =>
    if c = '"' then
      if acc.isEmpty then '"' :: subPhrasesAux true [] rest
      else ' ' :: subPhrasesAux false [] rest
    else subPhrasesAux true (c :: acc) rest

/-- `re.sub` replacing every quoted phrase by one space, on a list of
characters. -/
def reSubPhrases (l : List Char) : List Char := subPhrasesAux false [] l

/-- `re.split(r"[^\w+]+", s)`: split on maximal runs of non-token
characters.  The first argument records whether the scan is currently
inside a separator run (a field is emitted when a run starts, and skipped
characters extend the run).  As in Python, a leading or trailing separator
run produces an empty string at the corresponding end (filtered away
downstream). -/
def reSplitAux : Bool → List Char → List Char → List (List Char)
  | _, cur, [] => [cur.reverse]
  | false, cur, c :: rest =>
    if tokenChar c then reSplitAux false (c :: cur) rest
    else cur.reverse :: reSplitAux true [] rest
  | true, cur, c :: rest =>
    if tokenChar c then reSplitAux false (c :: cur) rest
    else reSplitAux true cur rest

/-- `re.split(r"[^\w+]+", s)` starting with an empty current token. -/
def reSplitTokens (l : List Char) : List (List Char) := reSplitAux false [] l

/-- The fixed stop-word set of `query_astra_llm.py`. -/
def STOPWORDS : List String :=
  ["the", "a", "an", "and", "or", "of", "for", "to", "in", "on", "at", "by",
   "with", "from", "about", "what", "which", "who", "whom", "whose", "is",
   "are", "was", "were", "be", "been", "being", "do", "does", "did", "can",
   "could", "should", "would", "may", "might", "will", "shall", "we", "our",
   "us", "you", "your", "they", "their", "it", "its", "this", "that",
   "these", "those", "please", "show", "tell", "give", "list", "explain",
   "how", "why", "when"]

/-- `re.findall` of the quoted-phrase regex on the stripped question: the
raw quoted phrases. -/
def rawPhrases (q : String) : List (List Char) := reFindPhrases (pyStrip q.data)

/-- `[p.strip().lower() for p in phrases if p.strip()]`: the processed quoted
phrases of `extract_query_terms` (only the blank-after-trim filter applies;
no length or stop-word condition). -/
def phrasesPart (q : String) : List String :=
  (rawPhrases q).filterMap (fun p =>
    if pyStrip p = [] then none else some (String.mk (pyLower (pyStrip p))))

/-- The single-word tokens of `extract_query_terms`: split the
phrase-stripped, lower-cased question on non-token characters and keep
non-empty tokens of length at least 3 that are not stop words. -/
def wordsPart (q : String) : List String :=
  ((reSplitTokens (pyLower (reSubPhrases (pyStrip q.data)))).map String.mk).filter
    (fun w => w != "" && decide (3 ≤ w.length) && !(STOPWORDS.contains w))

/-- The `seen`-set deduplication loop of `extract_query_terms`: keep the
first occurrence of every string, skipping anything already seen. -/
def dedupFirst (seen : List String) : List String → List String
  | [] => []
  | x :: xs => if x ∈ seen then dedupFirst seen xs else x :: dedupFirst (x :: seen) xs

/-- `extract_query_terms(q)`: quoted phrases first, then filtered single
words, deduplicated preserving first occurrence, truncated to 10 terms. -/
def extract_query_terms (q : String) : List String :=
  (dedupFirst [] (phrasesPart q ++ wordsPart q)).take 10

/-- Python `needle in hay` on strings: the needle occurs as a contiguous
slice of the haystack (the empty needle always occurs). -/
def charsSub (needle hay : List Char) : Bool :=
  (List.range (hay.length + 1)).any
    (fun p => (hay.drop p).take needle.length == needle)

/-- Is `c` a word character at index `p` of `t` (false when out of range)?
Building block for the regex word-boundary `\b`. -/
def wordAt (t : List Char) (p : Nat) : Bool :=
  match t.get? p with
  | some c => isWordChar c
  | none => false

/-- The regex `\b` matches at position `p` of `t` when exactly one of the
characters to the left and right of the position is a word character
(out-of-range counts as non-word). -/
def isBoundary (t : List Char) (p : Nat) : Bool :=
  (if p = 0 then false else wordAt t (p - 1)) != wordAt t p

/-- Does the literal `term` occur at position `p` of `t` with a word
boundary on each side, i.e. does `\b<escaped term>\b` match at `p`? -/
def wordMatchAt (term t : List Char) (p : Nat) : Bool :=
  ((t.drop p).take term.length == term) && isBoundary t p &&
    isBoundary t (p + term.length)

/-- `re.search(r"\b" + re.escape(term) + r"\b", t)`: the escaped term occurs
somewhere in `t` with word boundaries on both sides. -/
def wholeWordSearch (term t : List Char) : Bool :=
  (List.range (t.length + 1)).any (fun p => wordMatchAt term t p)

/-- The accumulation loop of `keyword_overlap_score` over the lower-cased
text `t`.  The Python loop adds the floats 2.0 and 1.0 to a float
accumulator; every intermediate value is a small integer, which IEEE
doubles represent exactly, so the loop is modelled over `ℤ`. -/
def keyword_overlap_loop (query_terms : List String) (t : List Char) : ℤ :=
  query_terms.foldl
    (fun score term =>
      if term.data.contains ' ' then
        if charsSub term.data t then score + 2 else score
      else
        if wholeWordSearch term.data t then score + 1 else score)
    0

/-- `keyword_overlap_score(query_terms, text)`: the deterministic fallback
scorer.  Phrase terms (containing a space) add 2.0 per literal-substring
hit on the lower-cased text; single-word terms add 1.0 per whole-word
match.  Empty term list or empty text scores 0.0. -/
def keyword_overlap_score (query_terms : List String) (text : String) : ℚ :=
  if query_terms.isEmpty || text == "" then 0
  else ((keyword_overlap_loop query_terms (pyLower text.data) : ℤ) : ℚ)

/-- One retrieved chunk as the pipeline sees it: the projected store
document plus the transient scores.  A missing or null `text` field is
modelled as the empty string (the pipeline only ever reads it through
`c.get("text") or ""` / `c.get("text", "")`, which treat the two alike);
`similarity` models `c.get("$similarity", 0.0)` and `rerank_score` the
optional `_rerank_score` key, absent unless the primary re-rank path set
it. -/
structure Candidate where
  url : String
  title : String
  text : String
  similarity : ℚ
  rerank_score : Option ℚ
deriving DecidableEq, Repr

/-- `keyword_gate(candidates, terms)`: keep the candidates whose lower-cased
text contains every term (two or more terms) or at least one term (one
term) as a literal substring; if nothing survives, return the original
candidate list. -/
def keyword_gate (candidates : List Candidate) (terms : List String) :
    List Candidate :=
  if candidates.isEmpty || terms.isEmpty then candidates
  else
    let require_all := decide (2 ≤ terms.length)
    let out := candidates.filter (fun c =>
      let t := pyLower c.text.data
      let hits := terms.countP (fun term => charsSub term.data t)
      if require_all then hits == terms.length else decide (1 ≤ hits))
    if out.isEmpty then candidates else out

/-- Lexicographic order on rational pairs: Python tuple comparison
`(a1, a2) <= (b1, b2)`. -/
def lexLe (x y : ℚ × ℚ) : Prop := x.1 < y.1 ∨ (x.1 = y.1 ∧ x.2 ≤ y.2)

instance instDecidableLexLe : DecidableRel lexLe := fun x y => by
  unfold lexLe
  infer_instance

/-- `sorted(l, key=key, reverse=True)` for a rational-pair key.  The sort of Python is stable and, for a total preorder, insertion sort with the relation
"`a` may be placed before `b`" (the key of `b` is lexicographically at
most the key of `a`) computes exactly the stable descending order. -/
def pySortDescPair (key : α → ℚ × ℚ) (l : List α) : List α :=
  List.insertionSort (fun a b => lexLe (key b) (key a)) l

/-- `sorted(l, key=key, reverse=True)` for a single rational key. -/
def pySortDescQ (key : α → ℚ) (l : List α) : List α :=
  List.insertionSort (fun a b => key b ≤ key a) l

/-- Outcome of one primary re-ranking attempt, as observed by
`rerank_candidates`: loading the cross-encoder raised (`loadFail`),
`predict` raised (`scoreFail`), or scoring returned with the given scores
after the given measured wall-clock time. -/
inductive CEOutcome where
  | loadFail
  | scoreFail
  | ok (scores : List ℚ) (elapsed_ms : ℚ)
deriving DecidableEq, Repr

/-- The process-global mutable state of the module: whether the lazily
initialised cross-encoder handle `_CE` has been populated by `get_ce`. -/
structure SysState where
  ce_loaded : Bool
deriving DecidableEq, Repr

/-- The `for c, s in zip(candidates, scores)` loop: write each score into
the `_rerank_score` field of its candidate; `zip` truncation leaves candidates
beyond the score list untouched. -/
def assignScores : List Candidate → List ℚ → List Candidate
  | [], _ => []
  | cs, [] => cs
  | c :: cs, s :: ss =>
    { c with rerank_score := some s } :: assignScores cs ss

/-- The `except` branch of `rerank_candidates`: score every candidate with
the deterministic keyword fallback, pair it with its vector similarity,
sort the triples descending by the `(keyword score, similarity)` tuple
(Python stable sort), and project the candidates back out. -/
def fallback_order (query_terms : List String) (candidates : List Candidate) :
    List Candidate :=
  let scored := candidates.map (fun c =>
    (keyword_overlap_score query_terms c.text, c.similarity, c))
  (pySortDescPair (fun x => (x.1, x.2.1)) scored).map (fun x => x.2.2)

/-- `rerank_candidates(question, candidates, query_terms)`: empty input
short-circuits to an empty list without touching the cross-encoder.
Otherwise build `(question, text[:1200])` pairs and attempt the primary
scoring path; when loading fails, scoring fails, or the measured elapsed
time exceeds the budget, fall back to the deterministic keyword ordering,
abandoning the primary scores.  On success, write the scores into the
candidates and sort them descending by score (missing scores read 0.0). -/
def rerank_candidates (ce : List (String × String) → CEOutcome) (budget : ℚ)
    (question : String) (candidates : List Candidate)
    (query_terms : List String) (st : SysState) : List Candidate × SysState :=
  if candidates.isEmpty then ([], st)
  else
    let pairs := candidates.map
      (fun c => (question, String.mk (c.text.data.take 1200)))
    match ce pairs with
    | CEOutcome.loadFail => (fallback_order query_terms candidates, st)
    | CEOutcome.scoreFail => (fallback_order query_terms candidates, ⟨true⟩)
    | CEOutcome.ok scores elapsed_ms =>
      if budget < elapsed_ms then (fallback_order query_terms candidates, ⟨true⟩)
      else
        (pySortDescQ (fun c => c.rerank_score.getD 0)
          (assignScores candidates scores), ⟨true⟩)

/-- The exception taxonomy of the external HTTP calls: missing
configuration (`RuntimeError`), a failing HTTP status
(`raise_for_status`), or a network/timeout failure from `requests`. -/
inductive ProviderError where
  | missingConfig (what : String)
  | httpError (status : Nat) (body : String)
  | timeout (detail : String)
deriving DecidableEq, Repr

/-- The value returned by `retrieve_and_answer`. -/
structure QAResult where
  answer : String
  sources : List Candidate
deriving DecidableEq, Repr

/-- The external collaborators of the pipeline, as pure functions:
`search` is `vector_candidate_search` (embedding plus vector store query),
`ce` the cross-encoder attempt for given pairs, and `llm` the
`answer_with_llm` call (prompt assembly plus watsonx chat).  A Python
exception is an `Except.error`. -/
structure Providers where
  search : String → Nat → Except ProviderError (List Candidate)
  ce : List (String × String) → CEOutcome
  llm : String → List Candidate → Except ProviderError String

/-- The environment-derived tuning knobs read by the module:
`CANDIDATE_K`, `FINAL_K` and `CE_TIMEOUT_MS` (defaults 40, 5, 300). -/
structure Config where
  candidate_k : Nat
  final_k : Nat
  ce_timeout_ms : ℚ

/-- The default configuration of `query_astra_llm.py`. -/
def defaultConfig : Config := ⟨40, 5, 300⟩

/-- `retrieve_and_answer(q)`: extract terms, fetch vector candidates
(early exit on an empty result), gate, re-rank, truncate to `final_k`,
and ask the answer LLM; an empty answer string becomes the placeholder
"(no content)".  Provider exceptions propagate as `Except.error`, and the
cross-encoder load state is threaded through. -/
def retrieve_and_answer (pv : Providers) (cfg : Config) (q : String)
    (st : SysState) : Except ProviderError QAResult × SysState :=
  let terms := extract_query_terms q
  match pv.search q cfg.candidate_k with
  | Except.error e => (Except.error e, st)
  | Except.ok cands =>
    if cands.isEmpty then
      (Except.ok ⟨"No results in Astra DB.", []⟩, st)
    else
      let gated := keyword_gate cands terms
      let rr := rerank_candidates pv.ce cfg.ce_timeout_ms q gated terms st
      let top_docs := rr.1.take cfg.final_k
      match pv.llm q top_docs with
      | Except.error e => (Except.error e, rr.2)
      | Except.ok ans =>
        (Except.ok ⟨if ans == "" then "(no content)" else ans, top_docs⟩, rr.2)

/-- C9: `keyword_gate` applied with an empty term list returns the
candidate list unchanged (identity). -/
theorem keyword_gate_empty_terms_id (candidates : List Candidate) :
    keyword_gate candidates [] = candidates := by
  unfold keyword_gate
  simp

/-- C8: `rerank_candidates` on an empty candidate list returns the empty
sequence with the system state untouched (no cross-encoder load), for
every scoring provider, budget, question and term list. -/
theorem rerank_empty_candidates (ce : List (String × String) → CEOutcome)
    (budget : ℚ) (question : String) (query_terms : List String)
    (st : SysState) :
    rerank_candidates ce budget question [] query_terms st = ([], st) := rfl

/-- C2: when the vector candidate search returns an empty list,
`retrieve_and_answer` returns exactly the "No results" result with empty
sources and leaves the state untouched; nothing else about the providers
(gate, re-ranking, synthesis) can influence the outcome, since the result
is the same constant for every provider bundle whose search returns
the empty list. -/
theorem early_exit_no_results (pv : Providers) (cfg : Config) (q : String)
    (st : SysState) (h : pv.search q cfg.candidate_k = Except.ok []) :
    retrieve_and_answer pv cfg q st =
      (Except.ok ⟨"No results in Astra DB.", []⟩, st) := by
  unfold retrieve_and_answer
  rw [h]
  rfl

/-- Provider stub whose vector search finds nothing. -/
def emptySearchStub : Providers :=
  ⟨fun _ _ => Except.ok [], fun _ => CEOutcome.scoreFail,
   fun _ _ => Except.ok "hello"⟩

theorem early_exit_no_results_check :
    retrieve_and_answer emptySearchStub defaultConfig "any question" ⟨false⟩ =
      (Except.ok ⟨"No results in Astra DB.", []⟩, ⟨false⟩) :=
  early_exit_no_results emptySearchStub defaultConfig "any question" ⟨false⟩ rfl

/-- C7: when the answer-generation provider fails, `retrieve_and_answer`
propagates exactly that structured error to the caller: the outcome is
`Except.error e`, not an invented answer and not a silent empty string. -/
theorem llm_failure_propagates (pv : Providers) (cfg : Config) (q : String)
    (st : SysState) (e : ProviderError)
    (hs : ∃ cands, pv.search q cfg.candidate_k = Except.ok cands ∧ cands ≠ [])
    (hllm : ∀ question docs, pv.llm question docs = Except.error e) :
    (retrieve_and_answer pv cfg q st).1 = Except.error e := by
  obtain ⟨cands, hok, hne⟩ := hs
  unfold retrieve_and_answer
  rw [hok]
  cases cands with
  | nil => exact absurd rfl hne
  | cons c cs => simp [hllm]

/-- One concrete retrievable chunk used by the closed checks. -/
def cDoc : Candidate := ⟨"http://site/a", "A", "alpha beta", 1, none⟩

/-- Provider stub whose answer LLM always times out. -/
def failingLLMStub : Providers :=
  ⟨fun _ _ => Except.ok [cDoc], fun _ => CEOutcome.scoreFail,
   fun _ _ => Except.error (ProviderError.timeout "watsonx read timeout")⟩

theorem llm_failure_propagates_check :
    (retrieve_and_answer failingLLMStub defaultConfig "question" ⟨false⟩).1 =
      Except.error (ProviderError.timeout "watsonx read timeout") :=
  llm_failure_propagates failingLLMStub defaultConfig "question" ⟨false⟩
    (ProviderError.timeout "watsonx read timeout")
    ⟨[cDoc], rfl, List.cons_ne_nil _ _⟩ (fun _ _ => rfl)

/-- The answer part of `rerank_candidates` does not depend on the incoming
cross-encoder load state (the state only records lazy initialisation). -/
theorem rerank_fst_state_indep (ce : List (String × String) → CEOutcome)
    (budget : ℚ) (question : String) (candidates : List Candidate)
    (query_terms : List String) (st st' : SysState) :
    (rerank_candidates ce budget question candidates query_terms st).1 =
      (rerank_candidates ce budget question candidates query_terms st').1 := by
  unfold rerank_candidates
  by_cases h : candidates.isEmpty
  · simp [h]
  · simp only [h, Bool.false_eq_true, if_false]
    cases ce (candidates.map (fun c => (question, String.mk (c.text.data.take 1200)))) with
    | loadFail => rfl
    | scoreFail => rfl
    | ok scores elapsed_ms =>
      by_cases hb : budget < elapsed_ms <;> simp [hb]

/-- The answer part of `retrieve_and_answer` does not depend on the
incoming system state. -/
theorem retrieve_fst_state_indep (pv : Providers) (cfg : Config)
    (q : String) (st st' : SysState) :
    (retrieve_and_answer pv cfg q st).1 = (retrieve_and_answer pv cfg q st').1 := by
  unfold retrieve_and_answer
  cases hs : pv.search q cfg.candidate_k with
  | error e => rfl
  | ok cands =>
    by_cases h : cands.isEmpty
    · simp [h]
    · simp only [h, Bool.false_eq_true, if_false]
      rw [rerank_fst_state_indep pv.ce cfg.ce_timeout_ms q
        (keyword_gate cands (extract_query_terms q)) (extract_query_terms q) st st']
      cases pv.llm q (List.take cfg.final_k
          (rerank_candidates pv.ce cfg.ce_timeout_ms q
            (keyword_gate cands (extract_query_terms q))
            (extract_query_terms q) st').1) with
      | error e => rfl
      | ok ans => rfl

/-- C6: two successive calls of `retrieve_and_answer` with the same
question, configuration and (deterministic) providers — the second call
starting from the state the first call left behind — return identical
results. -/
theorem retrieve_and_answer_idempotent (pv : Providers) (cfg : Config)
    (q : String) (st : SysState) :
    (retrieve_and_answer pv cfg q ((retrieve_and_answer pv cfg q st).2)).1 =
      (retrieve_and_answer pv cfg q st).1 :=
  retrieve_fst_state_indep pv cfg q _ st

/-- The composite fallback sort key of a candidate: keyword overlap score
first, vector similarity second. -/
def composite_key (terms : List String) (c : Candidate) : ℚ × ℚ :=
  (keyword_overlap_score terms c.text, c.similarity)

/-- Candidate `a` may precede candidate `b` in the fallback ordering: the
composite key of `b` is lexicographically at most that of `a`
(keyword score primary, similarity breaking ties, both descending). -/
def fallbackPrec (terms : List String) (a b : Candidate) : Prop :=
  lexLe (composite_key terms b) (composite_key terms a)

instance instDecFallbackPrec (terms : List String) :
    DecidableRel (fallbackPrec terms) :=
  fun _ _ => instDecidableLexLe _ _

/-- Claim-side description of the fallback ordering, in the words of the
spec: the input candidates, stably sorted in descending order of the
composite key `(keyword_overlap_score, similarity_score)`. -/
def fallback_ranking_spec (terms : List String)
    (candidates : List Candidate) : List Candidate :=
  pySortDescPair (composite_key terms) candidates

theorem lexLe_total (x y : ℚ × ℚ) : lexLe x y ∨ lexLe y x := by
  unfold lexLe
  rcases lt_trichotomy x.1 y.1 with h | h | h
  · exact Or.inl (Or.inl h)
  · rcases le_total x.2 y.2 with h2 | h2
    · exact Or.inl (Or.inr ⟨h, h2⟩)
    · exact Or.inr (Or.inr ⟨h.symm, h2⟩)
  · exact Or.inr (Or.inl h)

theorem lexLe_trans {x y z : ℚ × ℚ} (h1 : lexLe x y) (h2 : lexLe y z) :
    lexLe x z := by
  unfold lexLe at h1 h2 ⊢
  rcases h1 with h1 | ⟨e1, l1⟩
  · rcases h2 with h2 | ⟨e2, l2⟩
    · exact Or.inl (h1.trans h2)
    · exact Or.inl (lt_of_lt_of_le h1 (le_of_eq e2))
  · rcases h2 with h2 | ⟨e2, l2⟩
    · exact Or.inl (lt_of_le_of_lt (le_of_eq e1) h2)
    · exact Or.inr ⟨e1.trans e2, l1.trans l2⟩

instance instTotalFallbackPrec (terms : List String) :
    IsTotal Candidate (fallbackPrec terms) :=
  ⟨fun a b => lexLe_total (composite_key terms b) (composite_key terms a)⟩

instance instTransFallbackPrec (terms : List String) :
    IsTrans Candidate (fallbackPrec terms) :=
  ⟨fun _ _ _ h1 h2 => lexLe_trans h2 h1⟩

/-- Sorting a mapped list descending by a key is the map of sorting the
original list by the composed key (Python sorts compare keys only, so the
carried data is irrelevant to the ordering). -/
theorem pySortDescPair_map {α β : Type} (key : β → ℚ × ℚ) (f : α → β)
    (l : List α) :
    pySortDescPair key (l.map f) =
      (pySortDescPair (fun a => key (f a)) l).map f := by
  unfold pySortDescPair
  exact (List.map_insertionSort (fun a b => lexLe (key (f b)) (key (f a)))
    (fun a b => lexLe (key b) (key a)) f l (fun _ _ _ _ => Iff.rfl)).symm

/-- The `except` branch of `rerank_candidates` computes exactly the
spec-side fallback ordering. -/
theorem fallback_order_eq_spec (terms : List String)
    (cands : List Candidate) :
    fallback_order terms cands = fallback_ranking_spec terms cands := by
  show (pySortDescPair (fun x => (x.1, x.2.1))
      (cands.map (fun c => (keyword_overlap_score terms c.text, c.similarity, c)))).map
        (fun x => x.2.2) =
    pySortDescPair (composite_key terms) cands
  rw [pySortDescPair_map (fun x => (x.1, x.2.1))
    (fun c => (keyword_overlap_score terms c.text, c.similarity, c)) cands]
  rw [List.map_map]
  simp only [Function.comp_def, List.map_id_fun', id_eq]
  rfl

/-- Membership is preserved by the fallback ordering. -/
theorem mem_fallback_order {c : Candidate} {terms : List String}
    {cands : List Candidate} :
    c ∈ fallback_order terms cands ↔ c ∈ cands := by
  rw [fallback_order_eq_spec]
  unfold fallback_ranking_spec pySortDescPair
  exact List.mem_insertionSort _

/-- Whenever the cross-encoder attempt fails (load failure, scoring
exception, or measured elapsed time over the budget), `rerank_candidates`
returns the deterministic fallback ordering. -/
theorem rerank_fallback_cases (ce : List (String × String) → CEOutcome)
    (budget : ℚ) (question : String) (cands : List Candidate)
    (terms : List String) (st : SysState) (hne : cands ≠ [])
    (hfail :
      ce (cands.map (fun c => (question, String.mk (c.text.data.take 1200)))) =
          CEOutcome.loadFail ∨
        ce (cands.map (fun c => (question, String.mk (c.text.data.take 1200)))) =
          CEOutcome.scoreFail ∨
        ∃ scores elapsed_ms,
          ce (cands.map (fun c => (question, String.mk (c.text.data.take 1200)))) =
              CEOutcome.ok scores elapsed_ms ∧ budget < elapsed_ms) :
    (rerank_candidates ce budget question cands terms st).1 =
      fallback_order terms cands := by
  unfold rerank_candidates
  have hE : cands.isEmpty = false := by
    cases cands
    · exact absurd rfl hne
    · rfl
  simp only [hE, Bool.false_eq_true, if_false]
  rcases hfail with h | h | ⟨scores, elapsed_ms, h, hgt⟩
  · rw [h]
  · rw [h]
  · rw [h]
    simp only [if_pos hgt]

/-- C1: when the relevance-scoring call raises or its measured wall-clock
time exceeds the budget, `rerank_candidates` returns exactly the input
candidates sorted in descending order by the composite key
`(keyword_overlap_score, vector similarity)` — the result equals the
spec-side fallback ordering, is a permutation of the input, and is sorted
under the descending composite-key relation (keyword score primary,
similarity breaking ties). -/
theorem rerank_fallback_exact_order (ce : List (String × String) → CEOutcome)
    (budget : ℚ) (question : String) (cands : List Candidate)
    (terms : List String) (st : SysState) (hne : cands ≠ [])
    (hfail :
      ce (cands.map (fun c => (question, String.mk (c.text.data.take 1200)))) =
          CEOutcome.loadFail ∨
        ce (cands.map (fun c => (question, String.mk (c.text.data.take 1200)))) =
          CEOutcome.scoreFail ∨
        ∃ scores elapsed_ms,
          ce (cands.map (fun c => (question, String.mk (c.text.data.take 1200)))) =
              CEOutcome.ok scores elapsed_ms ∧ budget < elapsed_ms) :
    (rerank_candidates ce budget question cands terms st).1 =
        fallback_ranking_spec terms cands ∧
      List.Perm (rerank_candidates ce budget question cands terms st).1 cands ∧
      List.Sorted (fallbackPrec terms)
        (rerank_candidates ce budget question cands terms st).1 := by
  have h1 := rerank_fallback_cases ce budget question cands terms st hne hfail
  have h2 := fallback_order_eq_spec terms cands
  refine ⟨h1.trans h2, ?_, ?_⟩
  · rw [h1, h2]
    exact List.perm_insertionSort (fallbackPrec terms) cands
  · rw [h1, h2]
    exact List.sorted_insertionSort (fallbackPrec terms) cands

/-- Concrete chunk matching the query terms. -/
def cA : Candidate := ⟨"http://site/a", "A", "Machine Learning in finance", 1, none⟩

/-- Concrete chunk unrelated to the query terms. -/
def cB : Candidate := ⟨"http://site/b", "B", "cooking pasta at home", 2, none⟩

/-- Cross-encoder stub whose `predict` always raises. -/
def failingCEStub : List (String × String) → CEOutcome :=
  fun _ => CEOutcome.scoreFail

theorem rerank_fallback_exact_order_check :
    (rerank_candidates failingCEStub 300 "q" [cB, cA] ["machine learning"]
          ⟨false⟩).1 =
        fallback_ranking_spec ["machine learning"] [cB, cA] ∧
      List.Perm (rerank_candidates failingCEStub 300 "q" [cB, cA]
        ["machine learning"] ⟨false⟩).1 [cB, cA] ∧
      List.Sorted (fallbackPrec ["machine learning"])
        (rerank_candidates failingCEStub 300 "q" [cB, cA]
          ["machine learning"] ⟨false⟩).1 :=
  rerank_fallback_exact_order failingCEStub 300 "q" [cB, cA]
    ["machine learning"] ⟨false⟩ (List.cons_ne_nil _ _) (Or.inr (Or.inl rfl))

/-- C4: on the fallback path the primary model scores are abandoned
atomically: when no input candidate carries a rerank score, no candidate
of the returned sequence carries one either. -/
theorem rerank_fallback_abandons_scores
    (ce : List (String × String) → CEOutcome) (budget : ℚ)
    (question : String) (cands : List Candidate) (terms : List String)
    (st : SysState) (hnone : ∀ c ∈ cands, c.rerank_score = none)
    (hfail :
      ce (cands.map (fun c => (question, String.mk (c.text.data.take 1200)))) =
          CEOutcome.loadFail ∨
        ce (cands.map (fun c => (question, String.mk (c.text.data.take 1200)))) =
          CEOutcome.scoreFail ∨
        ∃ scores elapsed_ms,
          ce (cands.map (fun c => (question, String.mk (c.text.data.take 1200)))) =
              CEOutcome.ok scores elapsed_ms ∧ budget < elapsed_ms) :
    ∀ c ∈ (rerank_candidates ce budget question cands terms st).1,
      c.rerank_score = none := by
  cases cands with
  | nil =>
    intro c hc
    rw [rerank_empty_candidates] at hc
    simp at hc
  | cons a l =>
    rw [rerank_fallback_cases ce budget question (a :: l) terms st
      (List.cons_ne_nil a l) hfail]
    intro c hc
    exact hnone c (mem_fallback_order.mp hc)

theorem rerank_fallback_abandons_scores_check :
    ((rerank_candidates failingCEStub 300 "q" [cA, cB] ["finance"]
        ⟨false⟩).1.all (fun c => c.rerank_score == none)) = true := by
  rw [List.all_eq_true]
  intro c hc
  rw [beq_iff_eq]
  exact rerank_fallback_abandons_scores failingCEStub 300 "q" [cA, cB]
    ["finance"] ⟨false⟩ (by decide) (Or.inr (Or.inl rfl)) c hc

/-- Claim-side restatement of the gate predicate: with two or more terms
every term must occur (logical AND), with a single term at least one
occurrence suffices (logical OR); an occurrence is a literal substring hit
on the lower-cased candidate text with the term as written. -/
def gateKeep (terms : List String) (c : Candidate) : Bool :=
  if 2 ≤ terms.length then
    terms.all (fun term => charsSub term.data (pyLower c.text.data))
  else
    terms.any (fun term => charsSub term.data (pyLower c.text.data))

/-- The hit-counting condition of `keyword_gate` agrees pointwise with the
all/any restatement `gateKeep`. -/
theorem gate_pred_eq (terms : List String) (c : Candidate) :
    (if decide (2 ≤ terms.length) then
        terms.countP (fun term => charsSub term.data (pyLower c.text.data)) ==
          terms.length
      else
        decide (1 ≤ terms.countP
          (fun term => charsSub term.data (pyLower c.text.data)))) =
      gateKeep terms c := by
  unfold gateKeep
  by_cases hl : 2 ≤ terms.length
  · simp only [decide_eq_true_eq, if_pos hl]
    rw [Bool.eq_iff_iff]
    simp only [beq_iff_eq, List.all_eq_true]
    exact List.countP_eq_length
  · simp only [decide_eq_true_eq, if_neg hl]
    rw [Bool.eq_iff_iff]
    simp only [decide_eq_true_eq, List.any_eq_true]
    constructor
    · intro h
      exact List.countP_pos_iff.mp (by omega)
    · intro h
      have h2 := List.countP_pos_iff.mpr h
      omega

/-- C3 (amended): for non-empty candidates and terms, `keyword_gate`
returns the order-preserving subsequence of candidates passing the
AND/OR substring test on the lower-cased text with the terms as written
(the extractor only produces lower-cased terms), falling back to the
original candidates when the test eliminates everything; the result is a
sublist of the input and never empty. -/
theorem keyword_gate_spec (cands : List Candidate) (terms : List String)
    (h1 : cands ≠ []) (h2 : terms ≠ []) :
    keyword_gate cands terms =
        (if cands.filter (gateKeep terms) = [] then cands
         else cands.filter (gateKeep terms)) ∧
      keyword_gate cands terms ≠ [] ∧
      List.Sublist (keyword_gate cands terms) cands := by
  have hE1 : cands.isEmpty = false := by
    cases cands
    · exact absurd rfl h1
    · rfl
  have hE2 : terms.isEmpty = false := by
    cases terms
    · exact absurd rfl h2
    · rfl
  have hgate : keyword_gate cands terms =
      (if cands.filter (gateKeep terms) = [] then cands
       else cands.filter (gateKeep terms)) := by
    unfold keyword_gate
    simp only [hE1, hE2, Bool.or_self, Bool.false_eq_true, if_false]
    rw [List.filter_congr (fun c _ => gate_pred_eq terms c)]
    by_cases hout : cands.filter (gateKeep terms) = []
    · simp [hout]
    · have : (cands.filter (gateKeep terms)).isEmpty = false := by
        cases hc : cands.filter (gateKeep terms)
        · exact absurd hc hout
        · rfl
      simp [this, hout]
  refine ⟨hgate, ?_, ?_⟩
  · rw [hgate]
    by_cases hout : cands.filter (gateKeep terms) = []
    · simpa [hout] using h1
    · simp [hout]
  · rw [hgate]
    by_cases hout : cands.filter (gateKeep terms) = []
    · simp only [hout, if_pos]
      exact List.Sublist.refl cands
    · simp only [hout, if_neg, ite_false]
      exact List.filter_sublist cands

/-- Candidate whose text contains the query term only in lower case. -/
def cML : Candidate := ⟨"http://site/ml", "ML page", "uses ml daily", 1, none⟩

/-- Candidate whose text contains no query term at all. -/
def cNone : Candidate := ⟨"http://site/none", "None", "nothing here", 2, none⟩

/-- The gate exactly as C3 words it: matching is case-insensitive in both
the candidate text and the terms (both sides case-folded). -/
def keyword_gate_ci (candidates : List Candidate) (terms : List String) :
    List Candidate :=
  if candidates.isEmpty || terms.isEmpty then candidates
  else
    let out := candidates.filter (fun c =>
      if 2 ≤ terms.length then
        terms.all (fun term => charsSub (pyLower term.data) (pyLower c.text.data))
      else
        terms.any (fun term => charsSub (pyLower term.data) (pyLower c.text.data)))
    if out.isEmpty then candidates else out

/-- C3 counterexample: `keyword_gate` lower-cases only the candidate text,
not the terms.  For the upper-case term "ML" the case-insensitive
reading of the claim predicts exactly `[cML]` (the matching subsequence, which is
non-empty so no fallback applies), but the code finds no hit and falls
back to the whole original list. -/
theorem keyword_gate_ci_counterexample :
    keyword_gate_ci [cML, cNone] ["ML"] = [cML] ∧
      keyword_gate [cML, cNone] ["ML"] = [cML, cNone] := by
  constructor
  · decide
  · decide

theorem keyword_gate_spec_check :
    keyword_gate [cML, cNone] ["ml"] =
        (if [cML, cNone].filter (gateKeep ["ml"]) = [] then [cML, cNone]
         else [cML, cNone].filter (gateKeep ["ml"])) ∧
      keyword_gate [cML, cNone] ["ml"] ≠ [] ∧
      List.Sublist (keyword_gate [cML, cNone] ["ml"]) [cML, cNone] :=
  keyword_gate_spec [cML, cNone] ["ml"] (List.cons_ne_nil _ _)
    (List.cons_ne_nil _ _)

/-- The deduplication loop emits distinct strings, none of them in the
initial seen set. -/
theorem dedupFirst_nodup (seen : List String) (l : List String) :
    (dedupFirst seen l).Nodup ∧ ∀ x ∈ dedupFirst seen l, x ∉ seen := by
  induction l generalizing seen with
  | nil => simp [dedupFirst]
  | cons a l ih =>
    by_cases h : a ∈ seen
    · simpa [dedupFirst, h] using ih seen
    · obtain ⟨hnd, havoid⟩ := ih (a :: seen)
      refine ⟨?_, ?_⟩
      · simp only [dedupFirst, h, if_false, List.nodup_cons]
        refine ⟨fun hmem => ?_, hnd⟩
        exact havoid a hmem (List.mem_cons_self a seen)
      · intro x hx
        simp only [dedupFirst, h, if_false, List.mem_cons] at hx
        rcases hx with rfl | hx
        · exact h
        · exact fun hs => havoid x hx (List.mem_cons_of_mem a hs)

/-- Deduplication never lengthens a list. -/
theorem dedupFirst_length_le (seen : List String) (l : List String) :
    (dedupFirst seen l).length ≤ l.length := by
  induction l generalizing seen with
  | nil => simp [dedupFirst]
  | cons a l ih =>
    by_cases h : a ∈ seen
    · simp only [dedupFirst, h, if_true]
      exact le_trans (ih seen) (Nat.le_succ _)
    · simp only [dedupFirst, h, if_false, List.length_cons]
      exact Nat.succ_le_succ (ih (a :: seen))

/-- Membership in the deduplicated list. -/
theorem mem_dedupFirst {x : String} {seen l : List String} :
    x ∈ dedupFirst seen l ↔ x ∈ l ∧ x ∉ seen := by
  induction l generalizing seen with
  | nil => simp [dedupFirst]
  | cons a l ih =>
    by_cases h : a ∈ seen
    · simp only [dedupFirst, h, if_true, ih, List.mem_cons]
      constructor
      · rintro ⟨hl, hs⟩
        exact ⟨Or.inr hl, hs⟩
      · rintro ⟨rfl | hl, hs⟩
        · exact absurd h hs
        · exact ⟨hl, hs⟩
    · simp only [dedupFirst, h, if_false, List.mem_cons, ih]
      constructor
      · rintro (rfl | ⟨hl, hs⟩)
        · exact ⟨Or.inl rfl, h⟩
        · exact ⟨Or.inr hl, fun hx => hs (Or.inr hx)⟩
      · rintro ⟨rfl | hl, hs⟩
        · exact Or.inl rfl
        · by_cases hxa : x = a
          · exact Or.inl hxa
          · exact Or.inr ⟨hl, fun hx => by
              rcases hx with h1 | h2
              · exact hxa h1
              · exact hs h2⟩

/-- Deduplicating a concatenation starts with the deduplication of the
first part: the quoted phrases always come first. -/
theorem dedupFirst_append (seen a b : List String) :
    ∃ tail, dedupFirst seen (a ++ b) = dedupFirst seen a ++ tail := by
  induction a generalizing seen with
  | nil => exact ⟨dedupFirst seen b, rfl⟩
  | cons x xs ih =>
    by_cases h : x ∈ seen
    · simpa [dedupFirst, h] using ih seen
    · obtain ⟨tail, ht⟩ := ih (x :: seen)
      refine ⟨tail, ?_⟩
      simp only [List.cons_append, dedupFirst, h, if_false]
      exact congrArg (List.cons x) ht

/-- C5: for every question `extract_query_terms` decomposes as the
first-occurrence deduplication of quoted phrases followed by filtered
single words, truncated to at most 10 terms, hence has length at most 10
and is duplicate-free; on the running example it returns exactly
`["machine learning", "models", "finance"]`. -/
theorem extract_terms_spec :
    (∀ q : String,
        extract_query_terms q =
            (dedupFirst [] (phrasesPart q ++ wordsPart q)).take 10 ∧
          (extract_query_terms q).length ≤ 10 ∧
          (extract_query_terms q).Nodup) ∧
      extract_query_terms "\"machine learning\" models for finance" =
        ["machine learning", "models", "finance"] := by
  constructor
  · intro q
    refine ⟨rfl, List.length_take_le 10 _, ?_⟩
    exact List.Nodup.sublist (List.take_sublist 10 _)
      (dedupFirst_nodup [] (phrasesPart q ++ wordsPart q)).1
  · decide

/-- C10: a non-blank double-quoted phrase always survives into the
extracted terms (trimmed and lower-cased), no matter how short it is or
whether it consists of stop words — the length-3 and stop-word filters
apply only to unquoted tokens — provided the processed phrase list fits
the global 10-term truncation that applies to phrases and words alike. -/
theorem quoted_phrases_exempt (q : String) (p : List Char)
    (hp : p ∈ rawPhrases q) (hne : pyStrip p ≠ [])
    (hfit : (phrasesPart q).length ≤ 10) :
    String.mk (pyLower (pyStrip p)) ∈ extract_query_terms q := by
  have hmem : String.mk (pyLower (pyStrip p)) ∈ phrasesPart q := by
    unfold phrasesPart
    exact List.mem_filterMap.mpr ⟨p, hp, by simp [hne]⟩
  have hded : String.mk (pyLower (pyStrip p)) ∈ dedupFirst [] (phrasesPart q) :=
    mem_dedupFirst.mpr ⟨hmem, by simp⟩
  obtain ⟨tail, ht⟩ := dedupFirst_append [] (phrasesPart q) (wordsPart q)
  have hlen : (dedupFirst [] (phrasesPart q)).length ≤ 10 :=
    le_trans (dedupFirst_length_le [] _) hfit
  unfold extract_query_terms
  rw [ht, List.take_append_eq_append_take]
  exact List.mem_append_left _
    (by rw [List.take_of_length_le hlen]; exact hded)

theorem quoted_phrases_exempt_check :
    String.mk (pyLower (pyStrip ['o', 'f'])) ∈
      extract_query_terms "\"of\" question" :=
  quoted_phrases_exempt "\"of\" question" ['o', 'f'] (by decide) (by decide)
    (by decide)

/-- C10 counterexample: with eleven distinct quoted phrases the eleventh
is a non-blank quoted phrase of the question, yet it is not kept as an
extracted term — the global 10-term truncation also drops quoted
phrases, so "every double-quoted phrase is kept" fails as stated. -/
theorem quoted_phrases_truncation_counterexample :
    "k11" ∈ phrasesPart
        "\"k1\" \"k2\" \"k3\" \"k4\" \"k5\" \"k6\" \"k7\" \"k8\" \"k9\" \"k10\" \"k11\"" ∧
      "k11" ∉ extract_query_terms
        "\"k1\" \"k2\" \"k3\" \"k4\" \"k5\" \"k6\" \"k7\" \"k8\" \"k9\" \"k10\" \"k11\"" := by
  constructor
  · decide
  · decide
